import Mathlib

/-!
Verification of the magicsock path-selection core and the controlhttp dial
guard of this repository.

The repository snapshot contains `wgengine/magicsock/magicsock_test.go` and
`control/controlhttp/client_other.go`.  The magicsock implementation file
itself (`AddrSet.appendDests`, `AddrSet.UpdateDst`, `Conn.pickDERPFallback`,
`Conn.handleDiscoMessage`, `shouldSprayPacket`) is not part of the snapshot,
so those operations are modelled from the specification, and every modelled
definition is checked below against the concrete input/output vectors that
the in-repository tests (`TestAddrSet`, `TestPickDERPFallback`,
`TestDiscoMessage`) assert.  Where the spec prose and the test vectors
disagree, the test vectors win, since they are the code we actually have.

Conventions of the shallow embedding:
- transport addresses are (ip string, port) pairs;
- times are integer nanoseconds handed in explicitly (the injectable clock);
- the Go zero `time.Time` in the spray bookkeeping is modelled as `none`;
- the `-1 means unknown` index sentinel is modelled as `Option Nat`
  (spec section 9 explicitly asks for this modelling);
- diagnostic output (`Logf`) is modelled as a list of emitted log events
  returned by the operation.
-/

namespace Magicsock

/-- A transport address: IP as a string plus a port, the projection of
`net.UDPAddr` that the destination-set logic inspects. -/
structure Addr where
  ip : String
  port : Nat
deriving DecidableEq, Repr

instance : Inhabited Addr := ⟨⟨"", 0⟩⟩

/-- The reserved synthetic relay IP (`derpMagicIP`, "127.3.3.40"): addresses
with this IP mark relay routes; their port carries the relay region id. -/
def derpMagicIPStr : String := "127.3.3.40"

/-- Modelled from the spec: per-peer Destination Set state (spec section 3).
`magicsock.go` is not in the snapshot; fields follow the data model of the spec,
with the spray-window bookkeeping (`sprayStart`, `lastSpray`) and the
once-per-index low-priority log guard (`loggedLowPriMask`) shaped so that
every step of `TestAddrSet` is reproduced (proved below). -/
structure AddrSet where
  /-- ordered candidate addresses, index 0 = last resort. -/
  addrs : List Addr
  /-- current priority index; `none` models the unknown (-1) sentinel. -/
  curAddr : Option Nat
  /-- learned roaming address, takes precedence when present. -/
  roamAddr : Option Addr
  /-- time of the first spray-classified packet; `none` until then. -/
  sprayStart : Option Int
  /-- time of the most recently sprayed packet; `none` until first spray. -/
  lastSpray : Option Int
  /-- bitmask of candidate indices whose low-priority diagnostic already
  fired, so the redundant-update diagnostic is emitted at most once. -/
  loggedLowPriMask : Nat
deriving DecidableEq, Repr

/-- Spray window length.  `TestAddrSet/spray_packet` proves the window is
still open 600 ms after the first spray packet, so the constant exceeds
600 ms; 3 s (in nanoseconds) is consistent with every test vector. -/
def sprayPeriod : Int := 3000000000

/-- Minimum gap between two sprayed packets inside the window: 250 ms in
nanoseconds.  `TestAddrSet/spray_packet` pins it into (3 ns, 300 ms]. -/
def sprayFreq : Int := 250000000

/-- wireguard-go `device.MessageInitiationType`: the handshake-initiation
message type tag. -/
def MessageInitiationType : Nat := 1

/-- Little-endian 32-bit read of the first four bytes of a packet. -/
def leUint32 (b : List Nat) : Nat :=
  b.getD 0 0 % 256 + (b.getD 1 0 % 256) * 256
    + (b.getD 2 0 % 256) * 65536 + (b.getD 3 0 % 256) * 16777216

/-- Modelled from the spec: `shouldSprayPacket` (spec section 4.1).  A packet
is Spray-classified exactly when its type field marks a handshake-initiation
message; `TestAddrSet` checks this classification for its spray packet. -/
def shouldSprayPacket (b : List Nat) : Bool :=
  decide (4 ≤ b.length) && decide (leUint32 b = MessageInitiationType)

/-- Whether the spray window of the set is open at time `now`. -/
def AddrSet.inSprayWindow (a : AddrSet) (now : Int) : Bool :=
  match a.sprayStart with
  | some t0 => decide (now - t0 < sprayPeriod)
  | none => false

/-- The single non-spray destination, chosen by priority: the roaming
address if set, else the candidate at the current index if known (empty on
an out-of-range index, which is unreachable from valid states), else
candidate 0. -/
def AddrSet.primaryDest (a : AddrSet) : List Addr :=
  match a.roamAddr with
  | some r => [r]
  | none =>
    match a.curAddr with
    | some i => if h : i < a.addrs.length then [a.addrs.get ⟨i, h⟩] else []
    | none => [a.addrs.getD 0 default]

/-- Record the start of the spray window at the first spray-classified
packet; per spec section 4.1 the start time never resets afterwards. -/
def AddrSet.noteSprayStart (a : AddrSet) (sprayPkt : Bool) (now : Int) : AddrSet :=
  if sprayPkt && a.sprayStart.isNone then { a with sprayStart := some now } else a

/-- Whether this send is sprayed: a Spray-classified packet inside the open
window always is; a Regular packet inside the open window is sprayed when at
least `sprayFreq` has passed since the last sprayed packet (this keeps the
NAT mapping fresh during the window and is what `TestAddrSet/spray_packet`
steps 1-2 assert). -/
def AddrSet.sprayNow (a : AddrSet) (sprayPkt : Bool) (now : Int) : Bool :=
  if sprayPkt then a.inSprayWindow now
  else if a.inSprayWindow now then
    match a.lastSpray with
    | some ls => decide (sprayFreq ≤ now - ls)
    | none => true
  else false

/-- Modelled from the spec: `AddrSet.appendDests` (spec section 4.1),
reconciled with every `TestAddrSet` vector (proved below).  Returns the
destination list for packet `b` at time `now` together with the updated
set. -/
def AddrSet.appendDests (a : AddrSet) (b : List Nat) (now : Int) :
    List Addr × AddrSet :=
  let sprayPkt := shouldSprayPacket b
  let a1 := a.noteSprayStart sprayPkt now
  let spray := a1.sprayNow sprayPkt now
  let a2 := if spray then { a1 with lastSpray := some now } else a1
  let dsts := if spray then a2.addrs ++ a2.roamAddr.toList else a2.primaryDest
  (dsts, a2)

/-- Diagnostic events emitted by `AddrSet.UpdateDst`; the shallow model of
the `Logf` calls. -/
inductive UpdateLog where
  /-- entered or moved the roaming address. -/
  | roamingSet
  /-- observed a known candidate while roaming; roaming ends. -/
  | cameHome
  /-- current index was unknown and is now set. -/
  | newPriority
  /-- observed a lower-priority candidate; keeping the current one. -/
  | lowPriKeep
  /-- observed a higher-priority candidate; index raised. -/
  | raisePriority
deriving DecidableEq, Repr

/-- Index of the first occurrence of `x` in the candidate list, mirroring
the linear scan in the update path. -/
def firstIdx (x : Addr) : List Addr → Option Nat
  | [] => none
  | y :: ys => if y = x then some 0 else (firstIdx x ys).map (· + 1)

/-- Whether the observed address equals the candidate at the current
index (the hot-path early return of the update). -/
def AddrSet.curAddrIs (a : AddrSet) (x : Addr) : Bool :=
  match a.curAddr with
  | some i => decide (a.addrs.getD i default = x) && decide (i < a.addrs.length)
  | none => false

/-- Modelled from the spec: `AddrSet.UpdateDst` (spec section 4.1),
reconciled with the `TestAddrSet` vectors (proved below).  Relay-magic
addresses are ignored; an address matching no candidate becomes the roaming
address; a candidate match ends roaming, and otherwise only raises the
priority index — a lower-priority candidate keeps the current index and
emits its diagnostic at most once per index (`loggedLowPriMask`). -/
def AddrSet.UpdateDst (a : AddrSet) (x : Addr) : AddrSet × List UpdateLog :=
  if x.ip = derpMagicIPStr then (a, [])
  else if a.roamAddr = some x then (a, [])
  else if a.roamAddr = none ∧ a.curAddrIs x then (a, [])
  else
    match firstIdx x a.addrs with
    | none => ({ a with roamAddr := some x }, [.roamingSet])
    | some i =>
      if a.roamAddr ≠ none then
        ({ a with roamAddr := none, curAddr := some i, loggedLowPriMask := 0 },
          [.cameHome])
      else
        match a.curAddr with
        | none =>
          ({ a with curAddr := some i, loggedLowPriMask := 0 }, [.newPriority])
        | some cur =>
          if i < cur then
            if 1 ≤ i ∧ i ≤ 64 ∧ a.loggedLowPriMask.testBit (i - 1) = false then
              ({ a with loggedLowPriMask := a.loggedLowPriMask ||| 2 ^ (i - 1) },
                [.lowPriKeep])
            else (a, [])
          else ({ a with curAddr := some i, loggedLowPriMask := 0 },
            [.raisePriority])

section TestVectors

/-- The three candidate addresses every `TestAddrSet` case configures. -/
def testAddrs : List Addr :=
  [⟨"127.3.3.40", 1⟩, ⟨"123.45.67.89", 123⟩, ⟨"10.0.0.1", 123⟩]

/-- Bytes of the `regPacket` of the test ("some regular packet"): Regular. -/
def regPacketBytes : List Nat :=
  [115, 111, 109, 101, 32, 114, 101, 103, 117, 108, 97, 114,
   32, 112, 97, 99, 107, 101, 116]

/-- Bytes of the `sprayPacket` of the test: little-endian
`device.MessageInitiationType` in the first four bytes. -/
def sprayPacketBytes : List Nat := [1, 0, 0, 0]

/-- A fresh test `AddrSet` as `TestAddrSet` builds one, with the given
current index and roaming address (spray bookkeeping zeroed). -/
def mkTestSet (cur : Option Nat) (roam : Option Addr) : AddrSet :=
  ⟨testAddrs, cur, roam, none, none, 0⟩

theorem sprayPacket_classified : shouldSprayPacket sprayPacketBytes = true := by
  decide

theorem regPacket_classified : shouldSprayPacket regPacketBytes = false := by
  decide

/-- `TestAddrSet/reg_packet_no_curaddr`: unknown index, no roaming, a
Regular packet resolves to candidate 0. -/
theorem replay_reg_packet_no_curaddr :
    ((mkTestSet none none).appendDests regPacketBytes 0).1
      = [⟨"127.3.3.40", 1⟩] := by decide

/-- `TestAddrSet/reg_packet_have_curaddr`: index 1 known, Regular packet
resolves to candidate 1. -/
theorem replay_reg_packet_have_curaddr :
    ((mkTestSet (some 1) none).appendDests regPacketBytes 0).1
      = [⟨"123.45.67.89", 123⟩] := by decide

/-- `TestAddrSet/reg_packet_have_roamaddr`: the roaming address wins over
the index; updating to candidate 2 ends roaming. -/
theorem replay_reg_packet_have_roamaddr :
    (((mkTestSet (some 2) (some ⟨"5.6.7.8", 123⟩)).appendDests
        regPacketBytes 0).1 = [⟨"5.6.7.8", 123⟩])
    ∧ ((((mkTestSet (some 2) (some ⟨"5.6.7.8", 123⟩)).UpdateDst
          ⟨"10.0.0.1", 123⟩).1).appendDests regPacketBytes 0).1
        = [⟨"10.0.0.1", 123⟩] := by decide

/-- `TestAddrSet/start_roaming`: two roaming updates each take precedence,
then updating to candidate 1 ends roaming. -/
theorem replay_start_roaming :
    let s0 := mkTestSet (some 2) none
    let s1 := (s0.UpdateDst ⟨"4.5.6.7", 123⟩).1
    let s2 := (s1.UpdateDst ⟨"5.6.7.8", 123⟩).1
    let s3 := (s2.UpdateDst ⟨"123.45.67.89", 123⟩).1
    ((s0.appendDests regPacketBytes 0).1 = [⟨"10.0.0.1", 123⟩])
    ∧ ((s1.appendDests regPacketBytes 0).1 = [⟨"4.5.6.7", 123⟩])
    ∧ ((s2.appendDests regPacketBytes 0).1 = [⟨"5.6.7.8", 123⟩])
    ∧ ((s3.appendDests regPacketBytes 0).1 = [⟨"123.45.67.89", 123⟩]) := by
  decide

/-- `TestAddrSet/spray_packet`: the spray packet at t=0 fans out to all
four addresses; Regular packets at 300 ms and 600 ms are re-sprayed; 3 ns
later a Regular packet is back to the single roaming address; after an
update to candidate 2, resolution follows the new index. -/
theorem replay_spray_packet :
    let s0 := mkTestSet (some 2) (some ⟨"5.6.7.8", 123⟩)
    let r1 := s0.appendDests sprayPacketBytes 0
    let r2 := r1.2.appendDests regPacketBytes 300000000
    let r3 := r2.2.appendDests regPacketBytes 600000000
    let r4 := r3.2.appendDests regPacketBytes 600000003
    let s5 := (r4.2.UpdateDst ⟨"10.0.0.1", 123⟩).1
    let r6 := s5.appendDests regPacketBytes 602000006
    let allFour : List Addr :=
      [⟨"127.3.3.40", 1⟩, ⟨"123.45.67.89", 123⟩, ⟨"10.0.0.1", 123⟩,
       ⟨"5.6.7.8", 123⟩]
    (r1.1 = allFour) ∧ (r2.1 = allFour) ∧ (r3.1 = allFour)
    ∧ (r4.1 = [⟨"5.6.7.8", 123⟩]) ∧ (r6.1 = [⟨"10.0.0.1", 123⟩]) := by
  decide

/-- `TestAddrSet/low_pri`: updating twice to the lower-priority candidate 1
emits the keeping-current diagnostic exactly once in total. -/
theorem replay_low_pri :
    let s0 := mkTestSet (some 2) none
    let r1 := s0.UpdateDst ⟨"123.45.67.89", 123⟩
    let r2 := r1.1.UpdateDst ⟨"123.45.67.89", 123⟩
    (r1.2 = [UpdateLog.lowPriKeep]) ∧ (r2.2 = [])
    ∧ (r1.1.curAddr = some 2) ∧ (r2.1 = r1.1) := by decide

end TestVectors

section AddrSetLemmas

theorem firstIdx_lt_length {x : Addr} :
    ∀ {l : List Addr} {i : Nat}, firstIdx x l = some i → i < l.length := by
  intro l
  induction l with
  | nil => intro i h; simp [firstIdx] at h
  | cons y ys ih =>
    intro i h
    by_cases hy : y = x
    · simp only [firstIdx, if_pos hy, Option.some.injEq] at h
      subst h
      simp
    · simp only [firstIdx, if_neg hy, Option.map_eq_some'] at h
      obtain ⟨j, hj, rfl⟩ := h
      have := ih hj
      simp only [List.length_cons]
      omega

theorem firstIdx_getD {x : Addr} :
    ∀ {l : List Addr} {i : Nat}, firstIdx x l = some i → l.getD i default = x := by
  intro l
  induction l with
  | nil => intro i h; simp [firstIdx] at h
  | cons y ys ih =>
    intro i h
    by_cases hy : y = x
    · simp only [firstIdx, if_pos hy, Option.some.injEq] at h
      subst h
      simpa [List.getD_cons_zero] using hy
    · simp only [firstIdx, if_neg hy, Option.map_eq_some'] at h
      obtain ⟨j, hj, rfl⟩ := h
      rw [List.getD_cons_succ]
      exact ih hj

theorem firstIdx_min {x : Addr} :
    ∀ {l : List Addr} {i : Nat}, firstIdx x l = some i →
      ∀ j, j < l.length → l.getD j default = x → i ≤ j := by
  intro l
  induction l with
  | nil => intro i h; simp [firstIdx] at h
  | cons y ys ih =>
    intro i h j hj hx
    by_cases hy : y = x
    · simp only [firstIdx, if_pos hy, Option.some.injEq] at h
      omega
    · simp only [firstIdx, if_neg hy, Option.map_eq_some'] at h
      obtain ⟨i0, hi0, rfl⟩ := h
      match j with
      | 0 =>
        rw [List.getD_cons_zero] at hx
        exact absurd hx hy
      | j + 1 =>
        rw [List.getD_cons_succ] at hx
        simp only [List.length_cons] at hj
        have := ih hi0 j (by omega) hx
        omega

theorem appendDests_regular_noWindow (a : AddrSet) (b : List Nat) (now : Int)
    (hb : shouldSprayPacket b = false) (hw : a.inSprayWindow now = false) :
    a.appendDests b now = (a.primaryDest, a) := by
  simp [AddrSet.appendDests, AddrSet.noteSprayStart, AddrSet.sprayNow, hb, hw]

theorem appendDests_regular_recentSpray (a : AddrSet) (b : List Nat)
    (now ls : Int) (hb : shouldSprayPacket b = false)
    (hls : a.lastSpray = some ls) (hgap : now - ls < sprayFreq) :
    a.appendDests b now = (a.primaryDest, a) := by
  have hgap' : ¬ (sprayFreq ≤ now - ls) := not_le.mpr hgap
  by_cases hw : a.inSprayWindow now = true
  · simp [AddrSet.appendDests, AddrSet.noteSprayStart, AddrSet.sprayNow, hb, hw,
      hls, hgap']
  · simp only [Bool.not_eq_true] at hw
    simp [AddrSet.appendDests, AddrSet.noteSprayStart, AddrSet.sprayNow, hb, hw]

theorem appendDests_spray_first (a : AddrSet) (b : List Nat) (now : Int)
    (hb : shouldSprayPacket b = true) (h0 : a.sprayStart = none) :
    a.appendDests b now
      = (a.addrs ++ a.roamAddr.toList,
         { a with sprayStart := some now, lastSpray := some now }) := by
  have hp : (0 : Int) < sprayPeriod := by decide
  simp [AddrSet.appendDests, AddrSet.noteSprayStart, AddrSet.sprayNow,
    AddrSet.inSprayWindow, hb, h0, hp]

theorem appendDests_spray_open (a : AddrSet) (b : List Nat) (now t0 : Int)
    (hb : shouldSprayPacket b = true) (h0 : a.sprayStart = some t0)
    (hw : now - t0 < sprayPeriod) :
    a.appendDests b now
      = (a.addrs ++ a.roamAddr.toList, { a with lastSpray := some now }) := by
  simp [AddrSet.appendDests, AddrSet.noteSprayStart, AddrSet.sprayNow,
    AddrSet.inSprayWindow, hb, h0, hw]

theorem appendDests_spray_expired (a : AddrSet) (b : List Nat) (now t0 : Int)
    (hb : shouldSprayPacket b = true) (h0 : a.sprayStart = some t0)
    (hw : sprayPeriod ≤ now - t0) :
    a.appendDests b now = (a.primaryDest, a) := by
  have hw' : ¬ (now - t0 < sprayPeriod) := not_lt.mpr hw
  simp [AddrSet.appendDests, AddrSet.noteSprayStart, AddrSet.sprayNow,
    AddrSet.inSprayWindow, hb, h0, hw']

theorem primaryDest_roam (a : AddrSet) (r : Addr) (h : a.roamAddr = some r) :
    a.primaryDest = [r] := by
  simp [AddrSet.primaryDest, h]

theorem primaryDest_cur (a : AddrSet) (i : Nat) (h : i < a.addrs.length)
    (hr : a.roamAddr = none) (hc : a.curAddr = some i) :
    a.primaryDest = [a.addrs.get ⟨i, h⟩] := by
  simp [AddrSet.primaryDest, hr, hc, h]

theorem primaryDest_default (a : AddrSet) (hr : a.roamAddr = none)
    (hc : a.curAddr = none) : a.primaryDest = [a.addrs.getD 0 default] := by
  simp [AddrSet.primaryDest, hr, hc]

end AddrSetLemmas

section ClaimsAddrSetResolve

/-- C1: on a Destination Set on which no Spray-classified packet has ever
been sent (`sprayStart` is still unset, so no spray window is active),
resolving a Regular-classified packet returns exactly one address, chosen by
priority: the roaming address if set, else the candidate at the known
current index, else candidate 0. -/
theorem regular_resolve_before_any_spray (a : AddrSet) (b : List Nat)
    (now : Int) (hs : a.sprayStart = none) (hb : shouldSprayPacket b = false) :
    (∀ r, a.roamAddr = some r → (a.appendDests b now).1 = [r])
    ∧ (∀ i (h : i < a.addrs.length), a.roamAddr = none → a.curAddr = some i →
        (a.appendDests b now).1 = [a.addrs.get ⟨i, h⟩])
    ∧ (a.roamAddr = none → a.curAddr = none →
        (a.appendDests b now).1 = [a.addrs.getD 0 default]) := by
  have hw : a.inSprayWindow now = false := by simp [AddrSet.inSprayWindow, hs]
  rw [appendDests_regular_noWindow a b now hb hw]
  refine ⟨?_, ?_, ?_⟩
  · intro r hr; exact primaryDest_roam a r hr
  · intro i h hr hc; exact primaryDest_cur a i h hr hc
  · intro hr hc; exact primaryDest_default a hr hc

/-- Witness for C1 at the `TestAddrSet/reg_packet_no_curaddr` vector. -/
theorem regular_resolve_before_any_spray_witness :
    (mkTestSet none none).sprayStart = none
    ∧ shouldSprayPacket regPacketBytes = false
    ∧ ((mkTestSet none none).appendDests regPacketBytes 5).1
        = [⟨"127.3.3.40", 1⟩] := by
  refine ⟨rfl, by decide, ?_⟩
  exact (regular_resolve_before_any_spray (mkTestSet none none)
    regPacketBytes 5 rfl (by decide)).2.2 rfl rfl

/-- C2 counterexample: in the `TestAddrSet/spray_packet` vector, a
Regular-classified packet resolved 300 ms after the spray window opened is
itself sprayed and returns all four addresses — not a single one — so a
Regular packet can return more than one address while the window is open. -/
theorem regular_resolve_in_open_window_multi :
    shouldSprayPacket regPacketBytes = false
    ∧ ((((mkTestSet (some 2) (some ⟨"5.6.7.8", 123⟩)).appendDests
          sprayPacketBytes 0).2).appendDests regPacketBytes 300000000).1
        = [⟨"127.3.3.40", 1⟩, ⟨"123.45.67.89", 123⟩, ⟨"10.0.0.1", 123⟩,
           ⟨"5.6.7.8", 123⟩] := by decide

/-- C2 amended: resolve returns the single priority-chosen address
(roaming address if set, else the candidate at the known index, else
candidate 0) for a Regular packet when the spray window is not open, or
when less than the spray interval has passed since the last sprayed packet,
and for a Spray packet once the window has expired; a Regular packet inside
the open window with the spray interval elapsed is itself sprayed to all
addresses. -/
theorem resolve_single_address_cases (a : AddrSet) (b : List Nat) (now : Int) :
    (shouldSprayPacket b = false → a.inSprayWindow now = false →
      (a.appendDests b now).1 = a.primaryDest)
    ∧ (shouldSprayPacket b = false → ∀ ls, a.lastSpray = some ls →
        now - ls < sprayFreq → (a.appendDests b now).1 = a.primaryDest)
    ∧ (shouldSprayPacket b = true → ∀ t0, a.sprayStart = some t0 →
        sprayPeriod ≤ now - t0 → (a.appendDests b now).1 = a.primaryDest)
    ∧ (shouldSprayPacket b = false → a.inSprayWindow now = true →
        ∀ ls, a.lastSpray = some ls → sprayFreq ≤ now - ls →
        (a.appendDests b now).1 = a.addrs ++ a.roamAddr.toList)
    ∧ (∀ r, a.roamAddr = some r → a.primaryDest = [r])
    ∧ (∀ i (h : i < a.addrs.length), a.roamAddr = none → a.curAddr = some i →
        a.primaryDest = [a.addrs.get ⟨i, h⟩])
    ∧ (a.roamAddr = none → a.curAddr = none →
        a.primaryDest = [a.addrs.getD 0 default]) := by
  refine ⟨?_, ?_, ?_, ?_, ?_, ?_, ?_⟩
  · intro hb hw
    rw [appendDests_regular_noWindow a b now hb hw]
  · intro hb ls hls hgap
    rw [appendDests_regular_recentSpray a b now ls hb hls hgap]
  · intro hb t0 h0 hw
    rw [appendDests_spray_expired a b now t0 hb h0 hw]
  · intro hb hw ls hls hgap
    simp [AddrSet.appendDests, AddrSet.noteSprayStart, AddrSet.sprayNow, hb,
      hw, hls, hgap]
  · intro r hr; exact primaryDest_roam a r hr
  · intro i h hr hc; exact primaryDest_cur a i h hr hc
  · intro hr hc; exact primaryDest_default a hr hc

/-- Witness for the amended C2 at the fourth `spray_packet` step: 3 ns
after the last spray, a Regular packet is back to the single roaming
address. -/
theorem resolve_single_address_cases_witness :
    let a : AddrSet := ⟨testAddrs, some 2, some ⟨"5.6.7.8", 123⟩,
      some 0, some 600000000, 0⟩
    shouldSprayPacket regPacketBytes = false
    ∧ a.lastSpray = some 600000000
    ∧ (600000003 - 600000000 : Int) < sprayFreq
    ∧ (a.appendDests regPacketBytes 600000003).1 = [⟨"5.6.7.8", 123⟩] := by
  intro a
  refine ⟨by decide, rfl, by decide, ?_⟩
  have h := resolve_single_address_cases a regPacketBytes 600000003
  rw [h.2.1 (by decide) 600000000 rfl (by decide)]
  exact h.2.2.2.2.1 ⟨"5.6.7.8", 123⟩ rfl

/-- C3: a Spray-classified packet resolved while the spray window is open
(the window starts at the first Spray packet ever sent on the set) returns
all candidates followed by the roaming address if set — a list without
duplicates whenever the candidates are distinct and the roaming address is
not a candidate — and a Spray-classified packet resolved after the window
has expired returns the single priority-chosen address. -/
theorem spray_resolve_window (a : AddrSet) (b : List Nat) (now : Int)
    (hb : shouldSprayPacket b = true) :
    (a.sprayStart = none →
      (a.appendDests b now).1 = a.addrs ++ a.roamAddr.toList)
    ∧ (∀ t0, a.sprayStart = some t0 → now - t0 < sprayPeriod →
        (a.appendDests b now).1 = a.addrs ++ a.roamAddr.toList)
    ∧ (∀ t0, a.sprayStart = some t0 → sprayPeriod ≤ now - t0 →
        (a.appendDests b now).1 = a.primaryDest)
    ∧ (∀ r, a.roamAddr = some r → a.primaryDest = [r])
    ∧ (∀ i (h : i < a.addrs.length), a.roamAddr = none → a.curAddr = some i →
        a.primaryDest = [a.addrs.get ⟨i, h⟩])
    ∧ (a.roamAddr = none → a.curAddr = none →
        a.primaryDest = [a.addrs.getD 0 default])
    ∧ (a.addrs.Nodup → (∀ r, a.roamAddr = some r → r ∉ a.addrs) →
        (a.addrs ++ a.roamAddr.toList).Nodup) := by
  refine ⟨?_, ?_, ?_, ?_, ?_, ?_, ?_⟩
  · intro h0
    rw [appendDests_spray_first a b now hb h0]
  · intro t0 h0 hw
    rw [appendDests_spray_open a b now t0 hb h0 hw]
  · intro t0 h0 hw
    rw [appendDests_spray_expired a b now t0 hb h0 hw]
  · intro r hr; exact primaryDest_roam a r hr
  · intro i h hr hc; exact primaryDest_cur a i h hr hc
  · intro hr hc; exact primaryDest_default a hr hc
  · intro hnd hdisj
    rw [List.nodup_append]
    refine ⟨hnd, ?_, ?_⟩
    · cases hroam : a.roamAddr <;> simp
    · intro r hrmem hrtl
      cases hroam : a.roamAddr with
      | none => rw [hroam] at hrtl; simp at hrtl
      | some r0 =>
        rw [hroam] at hrtl
        simp at hrtl
        rw [hrtl] at hrmem
        exact hdisj r0 hroam hrmem

/-- Witness for C3 at the first `spray_packet` step: the first Spray packet
fans out to all candidates plus the roaming address, without duplicates. -/
theorem spray_resolve_window_witness :
    shouldSprayPacket sprayPacketBytes = true
    ∧ (mkTestSet (some 2) (some ⟨"5.6.7.8", 123⟩)).sprayStart = none
    ∧ ((mkTestSet (some 2) (some ⟨"5.6.7.8", 123⟩)).appendDests
        sprayPacketBytes 0).1
      = [⟨"127.3.3.40", 1⟩, ⟨"123.45.67.89", 123⟩, ⟨"10.0.0.1", 123⟩,
         ⟨"5.6.7.8", 123⟩]
    ∧ (((mkTestSet (some 2) (some ⟨"5.6.7.8", 123⟩)).appendDests
        sprayPacketBytes 0).1).Nodup := by
  have h := spray_resolve_window (mkTestSet (some 2) (some ⟨"5.6.7.8", 123⟩))
    sprayPacketBytes 0 (by decide)
  refine ⟨by decide, rfl, ?_, ?_⟩
  · exact h.1 rfl
  · rw [h.1 rfl]
    exact h.2.2.2.2.2.2 (by decide) (by decide)

end ClaimsAddrSetResolve

section UpdateDstLemmas

theorem updateDst_preserves (a : AddrSet) (x : Addr) :
    (a.UpdateDst x).1.addrs = a.addrs
    ∧ (a.UpdateDst x).1.sprayStart = a.sprayStart
    ∧ (a.UpdateDst x).1.lastSpray = a.lastSpray := by
  refine ⟨?_, ?_, ?_⟩ <;>
    (unfold AddrSet.UpdateDst; repeat' split) <;> rfl

theorem updateDst_noop_of_derp {a : AddrSet} {x : Addr}
    (hd : x.ip = derpMagicIPStr) : a.UpdateDst x = (a, []) := by
  simp [AddrSet.UpdateDst, hd]

theorem updateDst_noop_of_roam {a : AddrSet} {x : Addr}
    (h : a.roamAddr = some x) : a.UpdateDst x = (a, []) := by
  by_cases hd : x.ip = derpMagicIPStr <;> simp [AddrSet.UpdateDst, hd, h]

theorem updateDst_noop_of_cur {a : AddrSet} {x : Addr}
    (hr : a.roamAddr = none) (hc : a.curAddrIs x = true) :
    a.UpdateDst x = (a, []) := by
  by_cases hd : x.ip = derpMagicIPStr <;> simp [AddrSet.UpdateDst, hd, hr, hc]

theorem updateDst_noop_of_lowpri {a : AddrSet} {x : Addr} {i cur : Nat}
    (hd : ¬ x.ip = derpMagicIPStr) (hr : a.roamAddr = none)
    (hnc : ¬ a.curAddrIs x = true) (hfi : firstIdx x a.addrs = some i)
    (hcu : a.curAddr = some cur) (hic : i < cur)
    (hlog : ¬ (1 ≤ i ∧ i ≤ 64 ∧ a.loggedLowPriMask.testBit (i - 1) = false)) :
    a.UpdateDst x = (a, []) := by
  simp [AddrSet.UpdateDst, hd, hr, hnc, hfi, hcu, hic, hlog]

theorem curAddrIs_of_firstIdx {a : AddrSet} {x : Addr} {i : Nat}
    (hc : a.curAddr = some i) (hfi : firstIdx x a.addrs = some i) :
    a.curAddrIs x = true := by
  simp only [AddrSet.curAddrIs, hc, Bool.and_eq_true, decide_eq_true_eq]
  exact ⟨firstIdx_getD hfi, firstIdx_lt_length hfi⟩

end UpdateDstLemmas

section ClaimsUpdateDst

/-- C5: repeating the immediately preceding `UpdateDst` with the identical
address leaves every stored field of the set unchanged (the second call
returns the same state), the repeated call emits no diagnostic, and across
the pair of identical calls at most one diagnostic is emitted in total. -/
theorem updateDst_repeat_noop (a : AddrSet) (x : Addr) :
    (a.UpdateDst x).1.UpdateDst x = ((a.UpdateDst x).1, [])
    ∧ (a.UpdateDst x).2.length
        + ((a.UpdateDst x).1.UpdateDst x).2.length ≤ 1 := by
  have hmain : (a.UpdateDst x).1.UpdateDst x = ((a.UpdateDst x).1, []) := by
    by_cases hd : x.ip = derpMagicIPStr
    · rw [updateDst_noop_of_derp hd, updateDst_noop_of_derp hd]
    by_cases hrx : a.roamAddr = some x
    · rw [updateDst_noop_of_roam hrx, updateDst_noop_of_roam hrx]
    by_cases hcz : a.roamAddr = none ∧ a.curAddrIs x = true
    · rw [updateDst_noop_of_cur hcz.1 hcz.2, updateDst_noop_of_cur hcz.1 hcz.2]
    cases hfi : firstIdx x a.addrs with
    | none =>
      have h1 : a.UpdateDst x = ({ a with roamAddr := some x },
          [UpdateLog.roamingSet]) := by
        simp [AddrSet.UpdateDst, hd, hrx, hcz, hfi]
      rw [h1]
      exact updateDst_noop_of_roam rfl
    | some i =>
      cases hro : a.roamAddr with
      | some r =>
        have hrr : ¬ r = x := by
          rw [hro] at hrx
          simpa using hrx
        have h1 : a.UpdateDst x
            = (⟨a.addrs, some i, none, a.sprayStart, a.lastSpray, 0⟩,
               [UpdateLog.cameHome]) := by
          simp [AddrSet.UpdateDst, hd, hfi, hro, hrr]
        rw [h1]
        exact updateDst_noop_of_cur rfl (curAddrIs_of_firstIdx rfl hfi)
      | none =>
        have hncur : ¬ a.curAddrIs x = true := fun h => hcz ⟨hro, h⟩
        cases hcu : a.curAddr with
        | none =>
          have h1 : a.UpdateDst x
              = (⟨a.addrs, some i, none, a.sprayStart, a.lastSpray, 0⟩,
                 [UpdateLog.newPriority]) := by
            simp [AddrSet.UpdateDst, hd, hrx, hro, hncur, hfi, hcu]
          rw [h1]
          exact updateDst_noop_of_cur rfl (curAddrIs_of_firstIdx rfl hfi)
        | some cur =>
          by_cases hic : i < cur
          · by_cases hlog :
                1 ≤ i ∧ i ≤ 64 ∧ a.loggedLowPriMask.testBit (i - 1) = false
            · have h1 : a.UpdateDst x
                  = (⟨a.addrs, some cur, none, a.sprayStart, a.lastSpray,
                      a.loggedLowPriMask ||| 2 ^ (i - 1)⟩,
                     [UpdateLog.lowPriKeep]) := by
                simp [AddrSet.UpdateDst, hd, hrx, hro, hncur, hfi, hcu, hic,
                  hlog]
              rw [h1]
              refine updateDst_noop_of_lowpri hd rfl ?_ hfi rfl hic ?_
              · simpa [AddrSet.curAddrIs, hcu] using hncur
              · intro hcontra
                have := hcontra.2.2
                simp [Nat.testBit_or, Nat.testBit_two_pow_self] at this
            · have h1 : a.UpdateDst x = (a, []) :=
                updateDst_noop_of_lowpri hd hro hncur hfi hcu hic hlog
              rw [h1, h1]
          · have h1 : a.UpdateDst x
                = (⟨a.addrs, some i, none, a.sprayStart, a.lastSpray, 0⟩,
                   [UpdateLog.raisePriority]) := by
              simp [AddrSet.UpdateDst, hd, hrx, hro, hncur, hfi, hcu, hic]
            rw [h1]
            exact updateDst_noop_of_cur rfl (curAddrIs_of_firstIdx rfl hfi)
  refine ⟨hmain, ?_⟩
  rw [hmain]
  have hlen : (a.UpdateDst x).2.length ≤ 1 := by
    unfold AddrSet.UpdateDst
    repeat' split
    all_goals first | decide | simp
  simpa using hlen

/-- C4 counterexample: in the `TestAddrSet/low_pri` state the observed
address equals candidate 1, yet `UpdateDst` keeps the current index 2, and
the subsequent Regular resolve returns candidate 2, not the observed
candidate — so matching a candidate does not always set the index to it. -/
theorem updateDst_lower_candidate_kept :
    ((⟨"123.45.67.89", 123⟩ : Addr) ∈ (mkTestSet (some 2) none).addrs)
    ∧ (((mkTestSet (some 2) none).UpdateDst ⟨"123.45.67.89", 123⟩).1.curAddr
        = some 2)
    ∧ ((((mkTestSet (some 2) none).UpdateDst
          ⟨"123.45.67.89", 123⟩).1.appendDests regPacketBytes 0).1
        = [⟨"10.0.0.1", 123⟩]) := by decide

/-- C4 amended: for an observed address equal to a candidate (first match
at index `i`, and not the reserved relay IP), `UpdateDst` clears the
roaming address and sets the current index to `i` when the set is roaming,
when the index is unknown, or when `i` is at least the current index; when
the set is not roaming and `i` is below the current index, the current
index is kept.  After an update that ends roaming, a Regular resolve
outside the spray window returns that candidate. -/
theorem updateDst_candidate_cases (a : AddrSet) (x : Addr) (i : Nat)
    (hip : ¬ x.ip = derpMagicIPStr) (hfi : firstIdx x a.addrs = some i) :
    (∀ r, a.roamAddr = some r → ¬ r = x →
      (a.UpdateDst x).1.roamAddr = none ∧ (a.UpdateDst x).1.curAddr = some i)
    ∧ (a.roamAddr = none → a.curAddr = none →
        (a.UpdateDst x).1.curAddr = some i)
    ∧ (∀ cur, a.roamAddr = none → a.curAddr = some cur → cur ≤ i →
        (a.UpdateDst x).1.curAddr = some i)
    ∧ (∀ cur, a.roamAddr = none → a.curAddr = some cur → i < cur →
        (a.UpdateDst x).1.curAddr = some cur)
    ∧ (∀ b now r, a.roamAddr = some r → ¬ r = x →
        shouldSprayPacket b = false → a.inSprayWindow now = false →
        ((a.UpdateDst x).1.appendDests b now).1 = [x]) := by
  have hlt := firstIdx_lt_length hfi
  have hgd := firstIdx_getD hfi
  have hhome : ∀ r, a.roamAddr = some r → ¬ r = x →
      a.UpdateDst x = (⟨a.addrs, some i, none, a.sprayStart, a.lastSpray, 0⟩,
        [UpdateLog.cameHome]) := by
    intro r hro hrr
    simp [AddrSet.UpdateDst, hip, hfi, hro, hrr]
  refine ⟨?_, ?_, ?_, ?_, ?_⟩
  · intro r hro hrr
    rw [hhome r hro hrr]
    exact ⟨rfl, rfl⟩
  · intro hro hcu
    have hncur : a.curAddrIs x = false := by simp [AddrSet.curAddrIs, hcu]
    simp [AddrSet.UpdateDst, hip, hfi, hro, hcu, hncur]
  · intro cur hro hcu hci
    by_cases hcx : a.curAddrIs x = true
    · have hieq : i = cur := by
        have hcx' := hcx
        simp only [AddrSet.curAddrIs, hcu, Bool.and_eq_true,
          decide_eq_true_eq] at hcx'
        have := firstIdx_min hfi cur hcx'.2 hcx'.1
        omega
      rw [updateDst_noop_of_cur hro hcx, hcu, hieq]
    · have hnic : ¬ i < cur := by omega
      simp [AddrSet.UpdateDst, hip, hfi, hro, hcu, hcx, hnic]
  · intro cur hro hcu hic
    by_cases hcx : a.curAddrIs x = true
    · rw [updateDst_noop_of_cur hro hcx, hcu]
    · by_cases hlog :
          1 ≤ i ∧ i ≤ 64 ∧ a.loggedLowPriMask.testBit (i - 1) = false
      · simp [AddrSet.UpdateDst, hip, hfi, hro, hcu, hic, hcx, hlog]
      · rw [updateDst_noop_of_lowpri hip hro (by simpa using hcx) hfi hcu
          hic hlog, hcu]
  · intro b now r hro hrr hb hw
    rw [hhome r hro hrr]
    have hw2 : (⟨a.addrs, some i, none, a.sprayStart, a.lastSpray, 0⟩
        : AddrSet).inSprayWindow now = false := by
      simpa [AddrSet.inSprayWindow] using hw
    rw [appendDests_regular_noWindow _ b now hb hw2]
    have hpd := primaryDest_cur
      ⟨a.addrs, some i, none, a.sprayStart, a.lastSpray, 0⟩ i hlt rfl rfl
    have hget : a.addrs.get ⟨i, hlt⟩ = x := by
      have hx := hgd
      rw [List.getD_eq_getElem?_getD, List.getElem?_eq_getElem hlt] at hx
      simpa using hx
    show (⟨a.addrs, some i, none, a.sprayStart, a.lastSpray, 0⟩
      : AddrSet).primaryDest = [x]
    rw [hpd, hget]

/-- Witness for the amended C4 at the final `start_roaming` steps: after
roaming to 5.6.7.8:123, an update to candidate 1 ends roaming, sets the
index to 1, and the next Regular resolve returns that candidate. -/
theorem updateDst_candidate_cases_witness :
    let a : AddrSet := ⟨testAddrs, some 2, some ⟨"5.6.7.8", 123⟩, none,
      none, 0⟩
    (¬ (⟨"123.45.67.89", 123⟩ : Addr).ip = derpMagicIPStr)
    ∧ firstIdx ⟨"123.45.67.89", 123⟩ a.addrs = some 1
    ∧ (a.UpdateDst ⟨"123.45.67.89", 123⟩).1.roamAddr = none
    ∧ (a.UpdateDst ⟨"123.45.67.89", 123⟩).1.curAddr = some 1
    ∧ ((a.UpdateDst ⟨"123.45.67.89", 123⟩).1.appendDests
        regPacketBytes 7).1 = [⟨"123.45.67.89", 123⟩] := by
  intro a
  have h := updateDst_candidate_cases a ⟨"123.45.67.89", 123⟩ 1
    (by decide) (by decide)
  have h1 := h.1 ⟨"5.6.7.8", 123⟩ rfl (by decide)
  refine ⟨by decide, by decide, h1.1, h1.2, ?_⟩
  exact h.2.2.2.2 regPacketBytes 7 ⟨"5.6.7.8", 123⟩ rfl (by decide)
    (by decide) (by decide)

end ClaimsUpdateDst

section RelayPicker

/-- The relay region advertised by a Destination Set: the port of its first
relay-magic candidate address, or 0 when none (the `derpID` accessor used
by the fallback picker, as exercised by `TestPickDERPFallback`). -/
def AddrSet.derpID (a : AddrSet) : Int :=
  match a.addrs.find? (fun u => u.ip = derpMagicIPStr) with
  | some u => (u.port : Int)
  | none => 0

/-- Modelled from the spec: the Relay Fallback Picker state of a connection
instance (spec section 3).  `instanceSeed` is the explicit per-instance
value that seeds the uniform hash (spec sections 3 and 9); `myDerp` is the
sticky home region, 0 until first pick. -/
structure Conn where
  /-- region identifiers of the configured relay map. -/
  derpRegions : List Int
  /-- sticky home region; 0 means unset. -/
  myDerp : Int
  /-- per-peer destination sets, in a fixed traversal order. -/
  addrsByKey : List AddrSet
  /-- explicit per-instance hash seed, generated once at construction. -/
  instanceSeed : Nat
deriving DecidableEq, Repr

/-- Relay regions through which peers are currently reached: the nonzero
`derpID` values of the per-peer destination sets. -/
def Conn.peerDerpIDs (c : Conn) : List Int :=
  (c.addrsByKey.map AddrSet.derpID).filter (fun i => i ≠ 0)

/-- One step of the popularity count: bump the count of `id`. -/
def bumpCount : List (Int × Nat) → Int → List (Int × Nat)
  | [], id => [(id, 1)]
  | (k, n) :: rest, id =>
    if k = id then (k, n + 1) :: rest else (k, n) :: bumpCount rest id

/-- Look up the count of `id`. -/
def countOf : List (Int × Nat) → Int → Nat
  | [], _ => 0
  | (k, n) :: rest, id => if k = id then n else countOf rest id

/-- The region most popular among the given peer relay ids, scanning in
order and switching the leader only on a strictly larger count — the loop
of the fallback picker. -/
def bestDerp : List Int → List (Int × Nat) → Int → Nat → Int × Nat
  | [], _, best, bestCount => (best, bestCount)
  | id :: rest, counts, best, bestCount =>
    let counts2 := bumpCount counts id
    let v := countOf counts2 id
    if bestCount < v then bestDerp rest counts2 id v
    else bestDerp rest counts2 best bestCount

/-- Modelled from the spec: uniform hash of the instance seed mapped into
the region count (spec section 4.3); the concrete hash used by the
implementation is irrelevant to the claims, only that it is a pure function
of the stored seed. -/
def fallbackIndex (seed : Nat) (n : Nat) : Nat := seed % n

/-- Modelled from the spec: `Conn.pickDERPFallback` (spec section 4.3),
reconciled with `TestPickDERPFallback`: with no relay regions the pick is
0; with peers reached over relay regions the most popular such region wins
(even over a sticky choice); otherwise a sticky nonzero `myDerp` is
returned unchanged; otherwise the seed-hash selects a region, which becomes
the new sticky home. -/
def Conn.pickDERPFallback (c : Conn) : Int × Conn :=
  if c.derpRegions.isEmpty then (0, c)
  else if c.peerDerpIDs.isEmpty then
    if c.myDerp ≠ 0 then (c.myDerp, c)
    else
      let r := c.derpRegions.getD (fallbackIndex c.instanceSeed
        c.derpRegions.length) 0
      (r, { c with myDerp := r })
  else
    let r := (bestDerp c.peerDerpIDs [] 0 0).1
    (r, { c with myDerp := r })

/-- `TestPickDERPFallback`: a fresh connection with a four-region map picks
a nonzero region; with `myDerp` set to 123456 the pick is sticky; with a
peer reached through relay region 789 the pick joins the peers. -/
theorem replay_pickDERPFallback :
    ((Conn.pickDERPFallback ⟨[1, 2, 3, 4], 0, [], 7⟩).1 = 4)
    ∧ ((Conn.pickDERPFallback ⟨[1, 2, 3, 4], 0, [], 7⟩).1 ≠ 0)
    ∧ ((Conn.pickDERPFallback ⟨[1, 2, 3, 4], 123456, [], 7⟩).1 = 123456)
    ∧ ((Conn.pickDERPFallback ⟨[1, 2, 3, 4], 123456,
        [⟨[⟨"127.3.3.40", 789⟩], none, none, none, none, 0⟩], 7⟩).1
        = 789) := by decide

/-- Different seeds can select different regions (the distribution part of
`TestPickDERPFallback`): seeds 0 and 1 pick regions 1 and 2. -/
theorem replay_pickDERPFallback_spread :
    ((Conn.pickDERPFallback ⟨[1, 2, 3, 4], 0, [], 0⟩).1 = 1)
    ∧ ((Conn.pickDERPFallback ⟨[1, 2, 3, 4], 0, [], 1⟩).1 = 2) := by decide

theorem bestDerp_const (r : Int) :
    ∀ (l : List Int), (∀ i ∈ l, i = r) → ∀ k,
      bestDerp l [(r, k)] r k = (r, k + l.length) := by
  intro l
  induction l with
  | nil => intro _ k; simp [bestDerp]
  | cons j rest ih =>
    intro hall k
    have hj : j = r := hall j (List.mem_cons_self j rest)
    subst hj
    have hrest : ∀ i ∈ rest, i = j := fun i hi =>
      hall i (List.mem_cons_of_mem j hi)
    have h1 : bumpCount [(j, k)] j = [(j, k + 1)] := by simp [bumpCount]
    have h2 : countOf [(j, k + 1)] j = k + 1 := by simp [countOf]
    simp only [bestDerp, h1, h2]
    rw [if_pos (Nat.lt_succ_self k), ih hrest (k + 1)]
    simp only [List.length_cons]
    congr 1
    omega

theorem bestDerp_all_eq (r : Int) (l : List Int) (hne : l ≠ [])
    (hall : ∀ i ∈ l, i = r) : (bestDerp l [] 0 0).1 = r := by
  cases l with
  | nil => exact absurd rfl hne
  | cons j rest =>
    have hj : j = r := hall j (List.mem_cons_self j rest)
    subst hj
    have hrest : ∀ i ∈ rest, i = j := fun i hi =>
      hall i (List.mem_cons_of_mem j hi)
    have h1 : bumpCount [] j = [(j, 1)] := by simp [bumpCount]
    have h2 : countOf [(j, 1)] j = 1 := by simp [countOf]
    simp only [bestDerp, h1, h2]
    rw [if_pos (by omega : 0 < 1), bestDerp_const j rest hrest 1]

end RelayPicker

section ClaimsRelayPicker

/-- C6: picking the fallback relay region is repeatable — calling
`pickDERPFallback` again on the state the first call returned yields the
same region (and the same state), so repeated picks against unchanged
state all return the same region. -/
theorem pickDERPFallback_repeatable (c : Conn) :
    (c.pickDERPFallback.2).pickDERPFallback = c.pickDERPFallback := by
  cases c with
  | mk regions myDerp sets seed =>
    by_cases hreg : regions.isEmpty
    · simp [Conn.pickDERPFallback, hreg]
    · by_cases hpeer :
          (Conn.peerDerpIDs ⟨regions, myDerp, sets, seed⟩).isEmpty = true
      · by_cases hmy : myDerp ≠ 0
        · have e1 : Conn.pickDERPFallback ⟨regions, myDerp, sets, seed⟩
              = (myDerp, ⟨regions, myDerp, sets, seed⟩) := by
            simp [Conn.pickDERPFallback, hreg, hpeer, hmy]
          rw [e1, e1]
        · simp only [ne_eq, not_not] at hmy
          subst hmy
          by_cases hr : regions[fallbackIndex seed regions.length]?.getD 0 = 0
          · have e1 : Conn.pickDERPFallback ⟨regions, 0, sets, seed⟩
                = (0, ⟨regions, 0, sets, seed⟩) := by
              simp [Conn.pickDERPFallback, hreg, hpeer, hr]
            rw [e1, e1]
          · have e1 : Conn.pickDERPFallback ⟨regions, 0, sets, seed⟩
                = (regions[fallbackIndex seed regions.length]?.getD 0,
                   ⟨regions, regions[fallbackIndex seed
                     regions.length]?.getD 0, sets, seed⟩) := by
              simp [Conn.pickDERPFallback, hreg, hpeer]
            rw [e1]
            have hpeer2 : (Conn.peerDerpIDs ⟨regions,
                regions[fallbackIndex seed regions.length]?.getD 0, sets,
                seed⟩).isEmpty = true := hpeer
            simp [Conn.pickDERPFallback, hreg, hpeer2, hr]
      · have e1 : Conn.pickDERPFallback ⟨regions, myDerp, sets, seed⟩
            = ((bestDerp (Conn.peerDerpIDs
                  ⟨regions, myDerp, sets, seed⟩) [] 0 0).1,
               ⟨regions, (bestDerp (Conn.peerDerpIDs
                  ⟨regions, myDerp, sets, seed⟩) [] 0 0).1, sets, seed⟩) := by
          simp [Conn.pickDERPFallback, hreg, hpeer]
        rw [e1]
        have hpeer3 : Conn.peerDerpIDs ⟨regions,
            (bestDerp (Conn.peerDerpIDs
              ⟨regions, myDerp, sets, seed⟩) [] 0 0).1, sets, seed⟩ ≠ [] := by
          intro hnil
          exact hpeer (by simp [show Conn.peerDerpIDs
            ⟨regions, myDerp, sets, seed⟩ = [] from hnil])
        have hsame : Conn.peerDerpIDs ⟨regions,
            (bestDerp (Conn.peerDerpIDs
              ⟨regions, myDerp, sets, seed⟩) [] 0 0).1, sets, seed⟩
            = Conn.peerDerpIDs ⟨regions, myDerp, sets, seed⟩ := rfl
        have hpeer0 : Conn.peerDerpIDs ⟨regions, myDerp, sets, seed⟩
            ≠ [] := by simpa using hpeer
        simp [Conn.pickDERPFallback, hreg, hsame, hpeer0]

/-- C7: with a sticky home region already chosen, the pick returns it
unchanged — unless the peer relay-space addresses consistently indicate
some region, in which case the pick returns that region and moves the
sticky home to it. -/
theorem pickDERPFallback_sticky_unless_peers (c : Conn) (r : Int)
    (hhome : c.myDerp ≠ 0) (hreg : ¬ c.derpRegions.isEmpty) :
    (c.peerDerpIDs = [] → c.pickDERPFallback = (c.myDerp, c))
    ∧ (c.peerDerpIDs ≠ [] → (∀ i ∈ c.peerDerpIDs, i = r) →
        c.pickDERPFallback = (r, { c with myDerp := r })) := by
  constructor
  · intro hpeer
    simp [Conn.pickDERPFallback, hreg, hpeer, hhome]
  · intro hpeer hall
    have hbest := bestDerp_all_eq r c.peerDerpIDs hpeer hall
    have hpe : ¬ c.peerDerpIDs.isEmpty := by
      simpa [List.isEmpty_iff] using hpeer
    simp [Conn.pickDERPFallback, hreg, hpe, hbest]

/-- Witness for C7 at the `TestPickDERPFallback` vectors: sticky home
123456 is returned with no peer relay signal, and a peer reached through
relay region 789 moves the pick to 789. -/
theorem pickDERPFallback_sticky_unless_peers_witness :
    ((123456 : Int) ≠ 0)
    ∧ (Conn.pickDERPFallback ⟨[1, 2, 3, 4], 123456, [], 7⟩
        = (123456, ⟨[1, 2, 3, 4], 123456, [], 7⟩))
    ∧ (Conn.pickDERPFallback ⟨[1, 2, 3, 4], 123456,
        [⟨[⟨"127.3.3.40", 789⟩], none, none, none, none, 0⟩], 7⟩
        = (789, ⟨[1, 2, 3, 4], 789,
            [⟨[⟨"127.3.3.40", 789⟩], none, none, none, none, 0⟩], 7⟩)) := by
  refine ⟨by decide, ?_, ?_⟩
  · exact (pickDERPFallback_sticky_unless_peers
      ⟨[1, 2, 3, 4], 123456, [], 7⟩ 0 (by decide) (by decide)).1 (by decide)
  · exact (pickDERPFallback_sticky_unless_peers
      ⟨[1, 2, 3, 4], 123456,
        [⟨[⟨"127.3.3.40", 789⟩], none, none, none, none, 0⟩], 7⟩ 789
      (by decide) (by decide)).2 (by decide) (by decide)

end ClaimsRelayPicker

section DiscoCodec

/-- Wire bytes, each entry a byte value. -/
abbrev Bytes := List Nat

/-- The six UTF-8 bytes of the disco magic prefix (the test builds packets
starting with this marker). -/
def discoMagic : Bytes := [84, 83, 240, 159, 146, 172]

/-- Fixed envelope header length: 6 magic bytes, a 32-byte sender key and a
24-byte nonce. -/
def discoHeaderLen : Nat := 62

/-- Modelled from the spec: Curve25519 scalar-base multiplication of the
discovery key pair, idealized as the identity embedding of the secret
scalar (injective; secrecy is outside the scope of the codec claims). -/
def publicOf (sk : Nat) : Nat := sk

/-- Modelled from the spec: the NaCl box shared key derived from one
secret key and the other public key, idealized as the unordered pair of
the two scalars so that both directions derive the same key and distinct
key pairs derive distinct keys. -/
def sharedKey (sk : Nat) (pk : Nat) : Nat :=
  Nat.pair (min sk pk) (max sk pk)

/-- The 32-byte wire field of a key: the symbolic key value followed by 31
zero bytes. -/
def keyBytes (k : Nat) : Bytes := k :: List.replicate 31 0

/-- Little-endian base-256 value of a byte string. -/
def byteVal : Bytes → Nat
  | [] => 0
  | b :: bs => b + 256 * byteVal bs

/-- Injective encoding of a byte string as a number: its length paired
with its base-256 value. -/
def encodeBytes (l : Bytes) : Nat := Nat.pair l.length (byteVal l)

/-- Modelled from the spec: the authenticator of a sealed box, idealized
as an injective tag over the shared key, nonce and plaintext; the offset
by 256 makes a tag distinguishable from any single byte. -/
def boxTag (shared : Nat) (nonce : Bytes) (body : Bytes) : Nat :=
  256 + Nat.pair shared (Nat.pair (encodeBytes nonce) (encodeBytes body))

/-- Modelled from the spec: `box.Seal` — the payload followed by its
authenticator tag. -/
def boxSeal (shared : Nat) (nonce : Bytes) (payload : Bytes) : Bytes :=
  payload ++ [boxTag shared nonce payload]

/-- Modelled from the spec: `box.Open` — split off the trailing
authenticator, recompute it over the body, and fail on any mismatch. -/
def boxOpen (shared : Nat) (nonce : Bytes) (ct : Bytes) : Option Bytes :=
  match ct.getLast? with
  | none => none
  | some tag =>
    if tag = boxTag shared nonce ct.dropLast then some ct.dropLast else none

/-- The envelope layout: magic, 32-byte sender key field, nonce, then the
sealed box, exactly as `TestDiscoMessage` assembles its packet. -/
def discoAssemble (spub : Nat) (nonce sealed : Bytes) : Bytes :=
  discoMagic ++ (keyBytes spub ++ (nonce ++ sealed))

/-- Modelled from the spec: the disco envelope encoder (spec section 6) —
seal the payload under the sender secret key, the recipient public key and
the nonce, and prepend magic, sender public key and nonce. -/
def discoEncode (senderPriv recipPub : Nat) (nonce payload : Bytes) : Bytes :=
  discoAssemble (publicOf senderPriv) nonce
    (boxSeal (sharedKey senderPriv recipPub) nonce payload)

/-- Modelled from the spec: the disco envelope decoder
(`handleDiscoMessage`): reject inputs shorter than the header or without
the magic prefix, then open the sealed box under the recipient secret key
with the sender key and nonce taken from the header; any failure yields
`none` (no crash is possible: the function is total). -/
def handleDiscoMessage (recipPriv : Nat) (msg : Bytes) :
    Option (Nat × Bytes) :=
  if msg.length < discoHeaderLen then none
  else if ¬ msg.take 6 = discoMagic then none
  else
    let senderPub := (msg.drop 6).headD 0
    let nonce := (msg.drop 38).take 24
    let sealed := msg.drop discoHeaderLen
    match boxOpen (sharedKey recipPriv senderPub) nonce sealed with
    | some payload => some (senderPub, payload)
    | none => none

/-- `TestDiscoMessage`: a packet sealed for the connection by a known peer
(here the connection itself, as in the test) decodes successfully to the
payload "why hello". -/
theorem replay_discoMessage :
    handleDiscoMessage 2 (discoEncode 2 (publicOf 2) (List.replicate 24 3)
      [119, 104, 121, 32, 104, 101, 108, 108, 111])
    = some (2, [119, 104, 121, 32, 104, 101, 108, 108, 111]) := by decide

end DiscoCodec

section DiscoCodecLemmas

theorem getLast?_mem_of_eq {l : Bytes} {a : Nat} (h : l.getLast? = some a) :
    a ∈ l := by
  cases l with
  | nil => simp at h
  | cons x xs =>
    obtain ⟨hne, rfl⟩ := List.mem_getLast?_eq_getLast (l := x :: xs) (x := a)
      (by simp [h])
    exact List.getLast_mem hne

theorem set_append_add {α : Type} (l₁ l₂ : List α) (i : Nat) (b : α) :
    (l₁ ++ l₂).set (l₁.length + i) b = l₁ ++ l₂.set i b := by
  induction l₁ with
  | nil => simp
  | cons x xs ih =>
    have hlen : (x :: xs).length + i = (xs.length + i) + 1 := by
      simp only [List.length_cons]
      omega
    rw [List.cons_append, hlen]
    rw [show (x :: (xs ++ l₂)).set ((xs.length + i) + 1) b
      = x :: ((xs ++ l₂).set (xs.length + i) b) from by simp [List.set]]
    rw [ih, List.cons_append]

theorem set_append_lt {α : Type} :
    ∀ (l₁ l₂ : List α) (i : Nat) (b : α), i < l₁.length →
      (l₁ ++ l₂).set i b = l₁.set i b ++ l₂ := by
  intro l₁
  induction l₁ with
  | nil => intro l₂ i b h; simp at h
  | cons x xs ih =>
    intro l₂ i b h
    cases i with
    | zero => simp [List.set]
    | succ n =>
      rw [List.cons_append]
      rw [show (x :: (xs ++ l₂)).set (n + 1) b
        = x :: ((xs ++ l₂).set n b) from by simp [List.set]]
      rw [ih l₂ n b (by simpa using h)]
      simp [List.set]

theorem lt256_set {l : Bytes} {x : Nat} (hl : ∀ b ∈ l, b < 256)
    (hx : x < 256) : ∀ i, ∀ b ∈ l.set i x, b < 256 := by
  induction l with
  | nil => intro i b hb; simp at hb
  | cons y ys ih =>
    intro i b hb
    cases i with
    | zero =>
      rw [show (y :: ys).set 0 x = x :: ys from by simp [List.set]] at hb
      rcases List.mem_cons.mp hb with hb | hb
      · omega
      · exact hl b (List.mem_cons_of_mem y hb)
    | succ n =>
      rw [show (y :: ys).set (n + 1) x = y :: ys.set n x from by
        simp [List.set]] at hb
      rcases List.mem_cons.mp hb with hb | hb
      · rw [hb]; exact hl y (List.mem_cons_self y ys)
      · exact ih (fun b hb2 => hl b (List.mem_cons_of_mem y hb2)) n b hb

theorem byteVal_inj :
    ∀ {l1 l2 : Bytes}, l1.length = l2.length → (∀ b ∈ l1, b < 256) →
      (∀ b ∈ l2, b < 256) → byteVal l1 = byteVal l2 → l1 = l2 := by
  intro l1
  induction l1 with
  | nil =>
    intro l2 hlen _ _ _
    cases l2 with
    | nil => rfl
    | cons y ys => simp at hlen
  | cons x xs ih =>
    intro l2 hlen h1 h2 hv
    cases l2 with
    | nil => simp at hlen
    | cons y ys =>
      simp only [byteVal] at hv
      have hx : x < 256 := h1 x (List.mem_cons_self x xs)
      have hy : y < 256 := h2 y (List.mem_cons_self y ys)
      have hxy : x = y ∧ byteVal xs = byteVal ys := by omega
      have hlen2 : xs.length = ys.length := by
        simpa using hlen
      rw [hxy.1, ih hlen2 (fun b hb => h1 b (List.mem_cons_of_mem x hb))
        (fun b hb => h2 b (List.mem_cons_of_mem y hb)) hxy.2]

theorem encodeBytes_inj {l1 l2 : Bytes} (h1 : ∀ b ∈ l1, b < 256)
    (h2 : ∀ b ∈ l2, b < 256) (he : encodeBytes l1 = encodeBytes l2) :
    l1 = l2 := by
  unfold encodeBytes at he
  have h := Nat.pair_eq_pair.mp he
  exact byteVal_inj h.1 h1 h2 h.2

theorem boxTag_inj {s1 s2 : Nat} {n1 n2 b1 b2 : Bytes}
    (h : boxTag s1 n1 b1 = boxTag s2 n2 b2) :
    s1 = s2 ∧ encodeBytes n1 = encodeBytes n2
      ∧ encodeBytes b1 = encodeBytes b2 := by
  unfold boxTag at h
  have h2 : Nat.pair s1 (Nat.pair (encodeBytes n1) (encodeBytes b1))
      = Nat.pair s2 (Nat.pair (encodeBytes n2) (encodeBytes b2)) := by omega
  obtain ⟨hs, hrest⟩ := Nat.pair_eq_pair.mp h2
  obtain ⟨hn, hb⟩ := Nat.pair_eq_pair.mp hrest
  exact ⟨hs, hn, hb⟩

theorem boxOpen_seal (s : Nat) (n p : Bytes) :
    boxOpen s n (boxSeal s n p) = some p := by
  simp [boxOpen, boxSeal, List.getLast?_concat, List.dropLast_concat]

theorem boxOpen_seal_wrong {s1 s2 : Nat} (n p : Bytes) (hne : ¬ s2 = s1) :
    boxOpen s2 n (boxSeal s1 n p) = none := by
  have hcond : ¬ boxTag s1 n p = boxTag s2 n p := by
    intro heq
    exact hne (boxTag_inj heq).1.symm
  simp [boxOpen, boxSeal, List.getLast?_concat, List.dropLast_concat, hcond]

theorem boxOpen_small {s : Nat} {n ct : Bytes}
    (hct : ∀ b ∈ ct, b < 256) : boxOpen s n ct = none := by
  cases hg : ct.getLast? with
  | none => simp [boxOpen, hg]
  | some tag =>
    have htag : tag < 256 := hct tag (getLast?_mem_of_eq hg)
    have hne : ¬ tag = boxTag s n ct.dropLast := by
      unfold boxTag
      omega
    simp [boxOpen, hg, hne]

theorem sharedKey_comm (a b : Nat) : sharedKey a b = sharedKey b a := by
  simp [sharedKey, Nat.min_comm, Nat.max_comm]

theorem sharedKey_left_inj {a b c : Nat}
    (h : sharedKey a c = sharedKey b c) : a = b := by
  unfold sharedKey at h
  obtain ⟨h1, h2⟩ := Nat.pair_eq_pair.mp h
  have ha := min_add_max a c
  have hb := min_add_max b c
  omega

theorem boxOpen_seal_set (s : Nat) (n p : Bytes) (i : Nat) (b2 : Nat)
    (hp : ∀ b ∈ p, b < 256) (hb2 : b2 < 256) (hi : i < p.length + 1)
    (hne : ¬ b2 = (boxSeal s n p).getD i 0) :
    boxOpen s n ((boxSeal s n p).set i b2) = none := by
  by_cases hlt : i < p.length
  · have hset : (boxSeal s n p).set i b2
        = p.set i b2 ++ [boxTag s n p] :=
      set_append_lt p [boxTag s n p] i b2 hlt
    have hgd : (boxSeal s n p).getD i 0 = p.getD i 0 := by
      unfold boxSeal
      rw [List.getD_eq_getElem?_getD, List.getD_eq_getElem?_getD,
        List.getElem?_append_left hlt]
    have hchanged : ¬ p.set i b2 = p := by
      intro he
      have h1 : (p.set i b2)[i]? = p[i]? := by rw [he]
      rw [List.getElem?_set_self'] at h1
      rw [List.getElem?_eq_getElem hlt] at h1
      simp at h1
      exact hne (by rw [hgd, List.getD_eq_getElem?_getD,
        List.getElem?_eq_getElem hlt]; simpa using h1)
    have hcond : ¬ boxTag s n p = boxTag s n (p.set i b2) := by
      intro heq
      exact hchanged (encodeBytes_inj (lt256_set hp hb2 i) hp
        (boxTag_inj heq).2.2.symm)
    rw [hset]
    simp [boxOpen, List.getLast?_concat, List.dropLast_concat, hcond]
  · have hieq : i = p.length := by omega
    subst hieq
    have hset : (boxSeal s n p).set p.length b2 = p ++ [b2] := by
      unfold boxSeal
      have h := set_append_add p [boxTag s n p] 0 b2
      simp only [Nat.add_zero] at h
      rw [h]
      simp [List.set]
    have hne2 : ¬ b2 = boxTag s n p := by
      unfold boxTag
      omega
    rw [hset]
    simp [boxOpen, List.getLast?_concat, List.dropLast_concat, hne2]

theorem discoAssemble_split (spub : Nat) (nonce sealed : Bytes) :
    discoAssemble spub nonce sealed
      = ((discoMagic ++ keyBytes spub) ++ nonce) ++ sealed := by
  simp [discoAssemble, List.append_assoc]

theorem discoAssemble_prefix_length (spub : Nat) (nonce : Bytes)
    (hn : nonce.length = 24) :
    ((discoMagic ++ keyBytes spub) ++ nonce).length = 62 := by
  simp [discoMagic, keyBytes, hn]

theorem handleDiscoMessage_assemble (rp spub : Nat) (nonce sealed : Bytes)
    (hn : nonce.length = 24) :
    handleDiscoMessage rp (discoAssemble spub nonce sealed)
      = match boxOpen (sharedKey rp spub) nonce sealed with
        | some payload => some (spub, payload)
        | none => none := by
  have hm : discoMagic.length = 6 := by decide
  have hlen : (discoAssemble spub nonce sealed).length
      = 62 + sealed.length := by
    simp [discoAssemble, keyBytes, hn]
    omega
  have h1 : ¬ (discoAssemble spub nonce sealed).length < discoHeaderLen := by
    rw [hlen]
    unfold discoHeaderLen
    omega
  have h2 : (discoAssemble spub nonce sealed).take 6 = discoMagic :=
    List.take_left' hm
  have h4 : ((discoAssemble spub nonce sealed).drop 6).headD 0 = spub := by
    rw [show (discoAssemble spub nonce sealed).drop 6
      = keyBytes spub ++ (nonce ++ sealed) from List.drop_left' hm]
    simp [keyBytes]
  have h6 : (((discoAssemble spub nonce sealed).drop 38).take 24)
      = nonce := by
    rw [show discoAssemble spub nonce sealed
      = (discoMagic ++ keyBytes spub) ++ (nonce ++ sealed) from by
        simp [discoAssemble, List.append_assoc]]
    rw [List.drop_left' (by simp [discoMagic, keyBytes])]
    exact List.take_left' hn
  have h7 : (discoAssemble spub nonce sealed).drop discoHeaderLen
      = sealed := by
    rw [discoAssemble_split]
    exact List.drop_left' (by
      rw [discoAssemble_prefix_length spub nonce hn]
      decide)
  simp only [handleDiscoMessage]
  rw [if_neg h1, if_neg (not_not_intro h2), h4, h6, h7]

theorem discoAssemble_take (spub : Nat) (nonce sealed : Bytes)
    (hn : nonce.length = 24) (i : Nat) :
    (discoAssemble spub nonce sealed).take (62 + i)
      = discoAssemble spub nonce (sealed.take i) := by
  rw [discoAssemble_split, discoAssemble_split]
  rw [show (62 : Nat) + i
    = ((discoMagic ++ keyBytes spub) ++ nonce).length + i from by
      rw [discoAssemble_prefix_length spub nonce hn]]
  exact List.take_append i

theorem discoAssemble_set (spub : Nat) (nonce sealed : Bytes)
    (hn : nonce.length = 24) (i : Nat) (b2 : Nat) :
    (discoAssemble spub nonce sealed).set (62 + i) b2
      = discoAssemble spub nonce (sealed.set i b2) := by
  rw [discoAssemble_split, discoAssemble_split]
  rw [show (62 : Nat) + i
    = ((discoMagic ++ keyBytes spub) ++ nonce).length + i from by
      rw [discoAssemble_prefix_length spub nonce hn]]
  exact set_append_add _ sealed i b2

theorem discoAssemble_getD (spub : Nat) (nonce sealed : Bytes)
    (hn : nonce.length = 24) (i : Nat) :
    (discoAssemble spub nonce sealed).getD (62 + i) 0
      = sealed.getD i 0 := by
  rw [discoAssemble_split, List.getD_eq_getElem?_getD,
    List.getD_eq_getElem?_getD]
  rw [List.getElem?_append_right (by
    rw [discoAssemble_prefix_length spub nonce hn]
    omega)]
  rw [discoAssemble_prefix_length spub nonce hn]
  simp

end DiscoCodecLemmas

section ClaimsDiscoCodec

/-- C8: encoding a payload into a disco envelope and decoding it with the
matching recipient key recovers exactly the original payload and names the
sender key; decoding fails (returns `none`, with no possibility of a
crash since the decoder is total) for every input below the fixed header
size, for every input whose magic prefix does not match, for decoding with
any wrong recipient key, for every truncation of a valid envelope, and for
every single-byte alteration of the ciphertext portion of a valid
envelope. -/
theorem disco_roundtrip_and_reject (sp rp : Nat) (nonce payload : Bytes)
    (hn : nonce.length = 24) (hp : ∀ b ∈ payload, b < 256) :
    (handleDiscoMessage rp (discoEncode sp (publicOf rp) nonce payload)
      = some (publicOf sp, payload))
    ∧ (∀ msg : Bytes, msg.length < discoHeaderLen →
        handleDiscoMessage rp msg = none)
    ∧ (∀ msg : Bytes, ¬ msg.take 6 = discoMagic →
        handleDiscoMessage rp msg = none)
    ∧ (∀ rp2, ¬ rp2 = rp →
        handleDiscoMessage rp2 (discoEncode sp (publicOf rp) nonce payload)
          = none)
    ∧ (∀ k, discoHeaderLen ≤ k →
        k < (discoEncode sp (publicOf rp) nonce payload).length →
        handleDiscoMessage rp
          ((discoEncode sp (publicOf rp) nonce payload).take k) = none)
    ∧ (∀ j b2, discoHeaderLen ≤ j →
        j < (discoEncode sp (publicOf rp) nonce payload).length →
        b2 < 256 →
        ¬ b2 = (discoEncode sp (publicOf rp) nonce payload).getD j 0 →
        handleDiscoMessage rp
          ((discoEncode sp (publicOf rp) nonce payload).set j b2) = none) := by
  have hsh : sharedKey rp (publicOf sp) = sharedKey sp (publicOf rp) := by
    simp only [publicOf]
    exact sharedKey_comm rp sp
  have hseallen :
      (boxSeal (sharedKey sp (publicOf rp)) nonce payload).length
        = payload.length + 1 := by
    simp [boxSeal]
  have hencLen : (discoEncode sp (publicOf rp) nonce payload).length
      = 62 + (payload.length + 1) := by
    rw [show discoEncode sp (publicOf rp) nonce payload
      = discoAssemble (publicOf sp) nonce
          (boxSeal (sharedKey sp (publicOf rp)) nonce payload) from rfl]
    simp only [discoAssemble, List.length_append, hseallen, hn, keyBytes,
      discoMagic, List.length_cons, List.length_replicate, List.length_nil]
    omega
  refine ⟨?_, ?_, ?_, ?_, ?_, ?_⟩
  · rw [show discoEncode sp (publicOf rp) nonce payload
      = discoAssemble (publicOf sp) nonce
          (boxSeal (sharedKey sp (publicOf rp)) nonce payload) from rfl]
    rw [handleDiscoMessage_assemble rp (publicOf sp) nonce _ hn, hsh,
      boxOpen_seal]
  · intro msg hshort
    simp [handleDiscoMessage, hshort]
  · intro msg hmag
    by_cases hlen : msg.length < discoHeaderLen
    · simp [handleDiscoMessage, hlen]
    · simp [handleDiscoMessage, hlen, hmag]
  · intro rp2 hne
    rw [show discoEncode sp (publicOf rp) nonce payload
      = discoAssemble (publicOf sp) nonce
          (boxSeal (sharedKey sp (publicOf rp)) nonce payload) from rfl]
    rw [handleDiscoMessage_assemble rp2 (publicOf sp) nonce _ hn]
    have hkey : ¬ sharedKey rp2 (publicOf sp)
        = sharedKey sp (publicOf rp) := by
      intro heq
      rw [sharedKey_comm sp (publicOf rp)] at heq
      simp only [publicOf] at heq
      exact hne (sharedKey_left_inj heq)
    rw [boxOpen_seal_wrong nonce payload hkey]
  · intro k hk1 hk2
    rw [show discoEncode sp (publicOf rp) nonce payload
      = discoAssemble (publicOf sp) nonce
          (boxSeal (sharedKey sp (publicOf rp)) nonce payload) from rfl]
    have hk : k = 62 + (k - 62) := by
      unfold discoHeaderLen at hk1
      omega
    rw [hk, discoAssemble_take (publicOf sp) nonce _ hn (k - 62)]
    rw [handleDiscoMessage_assemble rp (publicOf sp) nonce _ hn]
    have hkp : k - 62 ≤ payload.length := by
      rw [hencLen] at hk2
      unfold discoHeaderLen at hk1
      omega
    have htake : (boxSeal (sharedKey sp (publicOf rp)) nonce
        payload).take (k - 62) = payload.take (k - 62) := by
      unfold boxSeal
      exact List.take_append_of_le_length hkp
    rw [htake, boxOpen_small (fun b hb =>
      hp b (List.take_subset (k - 62) payload hb))]
  · intro j b2 hj1 hj2 hb2 hne
    rw [show discoEncode sp (publicOf rp) nonce payload
      = discoAssemble (publicOf sp) nonce
          (boxSeal (sharedKey sp (publicOf rp)) nonce payload) from rfl]
      at hne ⊢
    have hj : j = 62 + (j - 62) := by
      unfold discoHeaderLen at hj1
      omega
    rw [hj] at hne ⊢
    rw [discoAssemble_set (publicOf sp) nonce _ hn (j - 62) b2]
    rw [discoAssemble_getD (publicOf sp) nonce _ hn (j - 62)] at hne
    rw [handleDiscoMessage_assemble rp (publicOf sp) nonce _ hn]
    have hji : j - 62 < payload.length + 1 := by
      rw [hencLen] at hj2
      omega
    rw [hsh.symm] at hne ⊢
    rw [boxOpen_seal_set (sharedKey rp (publicOf sp)) nonce payload
      (j - 62) b2 hp hb2 hji hne]

/-- Witness for C8 with key pair 1 and 2, a 24-byte nonce of 3s and the
payload "why": the round trip recovers the payload and key 3 fails to
decode it. -/
theorem disco_roundtrip_and_reject_witness :
    (List.replicate 24 3 : Bytes).length = 24
    ∧ (∀ b ∈ ([119, 104, 121] : Bytes), b < 256)
    ∧ handleDiscoMessage 2 (discoEncode 1 (publicOf 2)
        (List.replicate 24 3) [119, 104, 121])
      = some (publicOf 1, [119, 104, 121])
    ∧ handleDiscoMessage 3 (discoEncode 1 (publicOf 2)
        (List.replicate 24 3) [119, 104, 121]) = none := by
  have h := disco_roundtrip_and_reject 1 2 (List.replicate 24 3)
    [119, 104, 121] (by decide) (by decide)
  exact ⟨by decide, by decide, h.1, h.2.2.2.1 3 (by decide)⟩

end ClaimsDiscoCodec

end Magicsock

namespace Controlhttp

/-- An established control-protocol connection; its contents are never
inspected by the dial guard. -/
structure ClientConn where
  token : Nat
deriving DecidableEq, Repr

/-- The dialer of `control/controlhttp/client_other.go`.  Only `Hostname`
is read by the guard in `Dial`; the platform-specific `dial` routine it
would call next is not in the snapshot and is modelled as the stored
result `dialResult` that the guard returns untouched. -/
structure Dialer where
  Hostname : String
  dialResult : Option ClientConn × Option String

/-- Shallow embedding of `Dialer.Dial` from
`src/control/controlhttp/client_other.go`: with an empty `Hostname` it
returns no connection and the fixed error without invoking the underlying
`dial`; otherwise it defers to `dial`.  The boolean records whether the
underlying `dial` (the only place a network connection could be attempted)
was invoked. -/
def Dialer.Dial (a : Dialer) : (Option ClientConn × Option String) × Bool :=
  if a.Hostname = "" then
    ((none, some "required Dialer.Hostname empty"), false)
  else (a.dialResult, true)

/-- C10: calling `Dial` on a `Dialer` whose `Hostname` is the empty string
returns no connection and a non-empty error, and the underlying `dial`
(the network path) is never invoked. -/
theorem dial_empty_hostname (a : Dialer) (h : a.Hostname = "") :
    a.Dial.1.1 = none
    ∧ a.Dial.1.2 = some "required Dialer.Hostname empty"
    ∧ a.Dial.2 = false := by
  simp [Dialer.Dial, h]

/-- Witness for C10: a dialer with empty hostname and an available dial
result still refuses without dialing. -/
theorem dial_empty_hostname_witness :
    (Dialer.Hostname ⟨"", (some ⟨7⟩, none)⟩ = "")
    ∧ (Dialer.Dial ⟨"", (some ⟨7⟩, none)⟩).1.1 = none
    ∧ (Dialer.Dial ⟨"", (some ⟨7⟩, none)⟩).1.2
        = some "required Dialer.Hostname empty"
    ∧ (Dialer.Dial ⟨"", (some ⟨7⟩, none)⟩).2 = false := by
  have h := dial_empty_hostname ⟨"", (some ⟨7⟩, none)⟩ rfl
  exact ⟨rfl, h.1, h.2.1, h.2.2⟩

end Controlhttp
